import Mathlib

/-!
# Verification of the `task-tracker` CLI (`src/main.go`)

Shallow embedding of the Go program `main.go`. The program is a
single-file CLI task tracker: a `JsonTaskRepository` holds an in-memory
`[]Task` backed by a whole-file JSON store, and `main` dispatches CLI
commands to repository operations.

Modelling conventions:
* Go `int` task ids are modelled as `Int` (no overflow is relevant to any
  claim); timestamps (`time.Time`, UTC) are modelled as `Int` instants
  ordered by `≤`; each call to `time.Now().UTC()` inside one operation is
  modelled by an explicit clock argument.
* The task file is a `FileState`: absent, present-but-corrupt (content
  that `json.Unmarshal` rejects), or present with a valid task list.
  JSON (de)serialization of a valid list is modelled as the identity on
  `List Task` (round-tripping is not at issue in any claim).
* `os.WriteFile` is modelled by `save`, with a `saveOk : Bool` parameter
  selecting success or failure of the write; a failed write leaves the
  modelled file content unchanged.  Every attempted write is counted in
  `RepoM.writes` so that "the operation still persists" is expressible.
* `fmt.Printf`/`fmt.Println` to standard output are modelled as a list of
  output lines; messages to standard error are not tracked (claims only
  constrain the exit code and standard output).
-/

namespace TaskTracker

/-- Go struct `Task` (main.go lines 13–19).  (Lean's core library already
has a `Task` type, hence the enclosing namespace.) -/
structure Task where
  id : Int
  description : String
  status : String
  createdAt : Int
  updatedAt : Int
deriving DecidableEq, Repr

/-- The on-disk state of the task file. -/
inductive FileState
  | absent
  | corrupt
  | valid (tasks : List Task)
deriving DecidableEq, Repr

/-- Go struct `JsonTaskRepository` (lines 30–33) plus the modelled file it
is bound to, and a count of attempted file writes. -/
structure RepoM where
  tasks : List Task
  file : FileState
  writes : Nat
deriving DecidableEq, Repr

/-- `(r *JsonTaskRepository) load()` (lines 45–57): if the file does not
exist, write an empty list to it and leave `r.tasks` empty; otherwise
unmarshal the content into `r.tasks` (an error if it is not a valid task
list).  Returns the loaded task list, the resulting file state, and the
number of writes performed. -/
def loadFile (fs : FileState) : Except String (List Task × FileState × Nat) :=
  match fs with
  | .absent => .ok ([], .valid [], 1)
  | .corrupt => .error "CorruptDataError"
  | .valid l => .ok (l, .valid l, 0)

/-- `newJsonTaskRepository` (lines 35–43): construct the repository by
running `load`; propagate its error. -/
def newJsonTaskRepository (fs : FileState) : Except String RepoM :=
  match loadFile fs with
  | .error e => .error e
  | .ok (l, fs', w) => .ok ⟨l, fs', w⟩

/-- `(r *JsonTaskRepository) save()` (lines 59–66): marshal `r.tasks` and
write the whole file.  `ok` selects whether the `os.WriteFile` call
succeeds; marshalling of a task list itself never fails. -/
def save (ok : Bool) (r : RepoM) : RepoM × Option String :=
  if ok then ({ r with file := .valid r.tasks, writes := r.writes + 1 }, none)
  else ({ r with writes := r.writes + 1 }, some "PersistenceError")

/-- The task constructed by `Add` (lines 83–89): id is the current list
length plus one, status `"todo"`, the two `time.Now().UTC()` calls
modelled by `t1` (CreatedAt) and `t2` (UpdatedAt). -/
def mkTask (t1 t2 : Int) (d : String) (tasks : List Task) : Task :=
  ⟨Int.ofNat tasks.length + 1, d, "todo", t1, t2⟩

/-- The list mutation performed by `Add` (line 90): append the new task. -/
def addTasks (t1 t2 : Int) (d : String) (tasks : List Task) : List Task :=
  tasks ++ [mkTask t1 t2 d tasks]

/-- `(r *JsonTaskRepository) Add(description)` (lines 81–94): build the
task, append it to `r.tasks`, then return the task together with the
result of `save`. -/
def addRepo (ok : Bool) (t1 t2 : Int) (d : String) (r : RepoM) :
    Task × RepoM × Option String :=
  let task := mkTask t1 t2 d r.tasks
  let r1 := { r with tasks := r.tasks ++ [task] }
  let (r2, err) := save ok r1
  (task, r2, err)

/-- The list mutation performed by `Update` (lines 97–102).  The Go loop
`for i, t := range r.tasks { if t.ID == id { r.tasks[i].Description = …;
r.tasks[i].UpdatedAt = … } }` rewrites, in place, every element whose id
matches; only the `Description` and `UpdatedAt` fields change, so the
`t.ID` read at each index is the unmodified id and the loop is exactly an
element-wise map. -/
def updateTasks (now id : Int) (d : String) (tasks : List Task) : List Task :=
  tasks.map (fun t =>
    if t.id = id then { t with description := d, updatedAt := now } else t)

/-- `(r *JsonTaskRepository) Update(id, description)` (lines 96–104). -/
def updateRepo (ok : Bool) (now id : Int) (d : String) (r : RepoM) :
    RepoM × Option String :=
  save ok { r with tasks := updateTasks now id d r.tasks }

/-- The list mutation of `MarkInProgress` (lines 118–123): same loop shape
as `Update`, setting `Status` to `"in-progress"` and refreshing
`UpdatedAt`. -/
def markInProgressTasks (now id : Int) (tasks : List Task) : List Task :=
  tasks.map (fun t =>
    if t.id = id then { t with status := "in-progress", updatedAt := now } else t)

/-- `(r *JsonTaskRepository) MarkInProgress(id)` (lines 116–126). -/
def markInProgressRepo (ok : Bool) (now id : Int) (r : RepoM) :
    RepoM × Option String :=
  save ok { r with tasks := markInProgressTasks now id r.tasks }

/-- The list mutation of `MarkDone` (lines 130–135): sets `Status` to
`"done"` and refreshes `UpdatedAt` at every matching index. -/
def markDoneTasks (now id : Int) (tasks : List Task) : List Task :=
  tasks.map (fun t =>
    if t.id = id then { t with status := "done", updatedAt := now } else t)

/-- `(r *JsonTaskRepository) MarkDone(id)` (lines 128–138). -/
def markDoneRepo (ok : Bool) (now id : Int) (r : RepoM) : RepoM × Option String :=
  save ok { r with tasks := markDoneTasks now id r.tasks }

/-- One pass of the `Delete` loop (lines 107–111):

```go
for i, t := range r.tasks {
    if t.ID == id {
        r.tasks = append(r.tasks[:i], r.tasks[i+1:]...)
    }
}
```

`range r.tasks` is evaluated once: the loop index `i` runs over `0 ≤ i <
n` for the ORIGINAL length `n`, while each read `t` sees the CURRENT
backing array, which the `append` mutates in place.  We therefore carry
the backing array `A` (always of length `n`) and the current slice length
`m` of `r.tasks`.  On a match at `i`, `append(r.tasks[:i],
r.tasks[i+1:]...)` requires `i + 1 ≤ m` (otherwise Go panics with a
slice-bounds error, modelled as `none`), copies positions `i+1 … m-1`
down by one (positions `≥ m-1` keep their stale contents), and shrinks
`m` by one.  `fuel` counts the remaining iterations; in `deleteTasks` it
starts at `n` with `i = 0`, so `A.get? i` never misses — the `none` arm
of that match merely keeps the function total. -/
def deleteSteps (id : Int) : Nat → Nat → List Task → Nat →
    Option (List Task × Nat)
  | 0, _, A, m => some (A, m)
  | fuel + 1, i, A, m =>
    match A[i]? with
    | none => deleteSteps id fuel (i + 1) A m
    | some t =>
      if t.id = id then
        if i + 1 ≤ m then
          deleteSteps id fuel (i + 1)
            (A.take i ++ (A.drop (i + 1)).take (m - 1 - i) ++ A.drop (m - 1))
            (m - 1)
        else none
      else deleteSteps id fuel (i + 1) A m

/-- The list mutation of `Delete` (lines 107–111): run the loop over all
`n` original indices and return the final slice `A[0:m]`; `none` models
the Go panic reachable when several matching ids share the list. -/
def deleteTasks (id : Int) (tasks : List Task) : Option (List Task) :=
  (deleteSteps id tasks.length 0 tasks tasks.length).map (fun p => p.1.take p.2)

/-- `(r *JsonTaskRepository) Delete(id)` (lines 106–114): run the loop,
then `save`; `none` models the panic (in which case `save` is never
reached). -/
def deleteRepo (ok : Bool) (id : Int) (r : RepoM) :
    Option (RepoM × Option String) :=
  match deleteTasks id r.tasks with
  | none => none
  | some tasks => some (save ok { r with tasks := tasks })

/-- `(r *JsonTaskRepository) List(status)` (lines 68–79): a non-empty
filter keeps exactly the tasks whose `Status` equals it, in order; the
error component is always `nil`. -/
def listRepo (status : String) (r : RepoM) : List Task × Option String :=
  if status ≠ "" then
    (r.tasks.filter (fun t => t.status == status), none)
  else
    (r.tasks, none)

/-! ## Command dispatcher (`main` and the per-command handlers) -/

/-- `strconv.Atoi` (as used on id operands): an optional sign followed by
at least one digit.  Overflow of the machine `int` is not modelled. -/
def atoi (s : String) : Option Int :=
  match s.data with
  | [] => none
  | c :: rest =>
    let p : Bool × List Char :=
      if c = '-' then (true, rest)
      else if c = '+' then (false, rest) else (false, c :: rest)
    if p.2.isEmpty then none
    else if p.2.all (fun d => d.isDigit) then
      let v : Nat := p.2.foldl (fun acc d => acc * 10 + (d.toNat - 48)) 0
      some (if p.1 then -(v : Int) else (v : Int))
    else none

/-- The lines printed by `printUsage` (lines 179–188). -/
def usageLines : List String :=
  ["Usage: task-tracker <command> [args]",
   "Commands:",
   "  add <description>",
   "  update <id> <description>",
   "  delete <id>",
   "  mark-in-progress <id>",
   "  mark-done <id>",
   "  list [status]"]

/-- `fmt.Println(task.ID, task.Description, task.Status)` (lines 255 and
267): the operands joined by single spaces. -/
def fmtTaskLine (t : Task) : String :=
  toString t.id ++ " " ++ t.description ++ " " ++ t.status

/-- `fmt.Printf("task added successfully (ID: %d)\n", task.ID)` (line 199). -/
def addSuccessLine (t : Task) : String :=
  "task added successfully (ID: " ++ toString t.id ++ ")"

/-- Result of one per-command handler (`add`, `update`, …): the returned
error (`none` = success), the lines printed to standard output, the
repository afterwards, whether any repository operation was invoked, and
whether the handler panicked (reachable only inside `Delete`). -/
structure CmdResult where
  err : Option String
  out : List String
  repo : RepoM
  repoOp : Bool
  panicked : Bool
deriving DecidableEq, Repr

/-- `func add(args, repo)` (lines 190–201). -/
def addCmd (now : Int) (args : List String) (repo : RepoM) : CmdResult :=
  match args with
  | [d] =>
    let (task, r2, e) := addRepo true now now d repo
    match e with
    | some msg => ⟨some msg, [], r2, true, false⟩
    | none => ⟨none, [addSuccessLine task], r2, true, false⟩
  | _ => ⟨some "help: task-tracker add \"task description\"", [], repo, false, false⟩

/-- `func update(args, repo)` (lines 203–212). -/
def updateCmd (now : Int) (args : List String) (repo : RepoM) : CmdResult :=
  match args with
  | [idStr, d] =>
    match atoi idStr with
    | none => ⟨some "invalid id", [], repo, false, false⟩
    | some id =>
      let (r2, e) := updateRepo true now id d repo
      ⟨e, [], r2, true, false⟩
  | _ => ⟨some "help: task-tracker update 1 \"new task description\"", [], repo, false, false⟩

/-- `func delete(args, repo)` (lines 214–223). -/
def deleteCmd (args : List String) (repo : RepoM) : CmdResult :=
  match args with
  | [idStr] =>
    match atoi idStr with
    | none => ⟨some "invalid id", [], repo, false, false⟩
    | some id =>
      match deleteRepo true id repo with
      | none => ⟨none, [], repo, true, true⟩
      | some (r2, e) => ⟨e, [], r2, true, false⟩
  | _ => ⟨some "help: task-tracker delete 1", [], repo, false, false⟩

/-- `func markInProgress(args, repo)` (lines 225–234). -/
def markInProgressCmd (now : Int) (args : List String) (repo : RepoM) : CmdResult :=
  match args with
  | [idStr] =>
    match atoi idStr with
    | none => ⟨some "invalid id", [], repo, false, false⟩
    | some id =>
      let (r2, e) := markInProgressRepo true now id repo
      ⟨e, [], r2, true, false⟩
  | _ => ⟨some "help: task-tracker mark-in-progress 1", [], repo, false, false⟩

/-- `func markDone(args, repo)` (lines 236–245). -/
def markDoneCmd (now : Int) (args : List String) (repo : RepoM) : CmdResult :=
  match args with
  | [idStr] =>
    match atoi idStr with
    | none => ⟨some "invalid id", [], repo, false, false⟩
    | some id =>
      let (r2, e) := markDoneRepo true now id repo
      ⟨e, [], r2, true, false⟩
  | _ => ⟨some "help: task-tracker mark-done 1", [], repo, false, false⟩

/-- `func list(args, repo)` (lines 247–275): zero operands lists all; one
operand must be a valid status (checked before the repository is
consulted); more than one is a usage error. -/
def listCmd (args : List String) (repo : RepoM) : CmdResult :=
  match args with
  | [] =>
    let (tasks, e) := listRepo "" repo
    match e with
    | some msg => ⟨some msg, [], repo, true, false⟩
    | none => ⟨none, tasks.map fmtTaskLine, repo, true, false⟩
  | [s] =>
    if ["todo", "in-progress", "done"].contains s then
      let (tasks, e) := listRepo s repo
      match e with
      | some msg => ⟨some msg, [], repo, true, false⟩
      | none => ⟨none, tasks.map fmtTaskLine, repo, true, false⟩
    else ⟨some "invalid status", [], repo, false, false⟩
  | _ => ⟨some "help: task-tracker list", [], repo, false, false⟩

/-- Observable outcome of one process run: exit code, standard output,
final state of the task file, whether the task file was ever accessed
(read, created or written), and whether any repository operation ran. -/
structure MainResult where
  exitCode : Nat
  stdout : List String
  fs : FileState
  fileAccess : Bool
  repoOp : Bool
deriving DecidableEq, Repr

/-- `func main()` (lines 140–177).  `args` is `os.Args[1:]` (program name
dropped); `now` models the value every `time.Now().UTC()` call in this
invocation returns.  Note the order faithful to the source: the
repository is constructed — reading the file, creating it when absent —
BEFORE the command name is inspected; only the empty-argument usage exit
happens earlier.  A Go runtime panic is modelled as exit code 2. -/
def runMain (now : Int) (args : List String) (fs : FileState) : MainResult :=
  match args with
  | [] => ⟨1, usageLines, fs, false, false⟩
  | command :: operands =>
    match newJsonTaskRepository fs with
    | .error _ => ⟨1, [], fs, true, false⟩
    | .ok repo =>
      let res : Option CmdResult :=
        match command with
        | "add" => some (addCmd now operands repo)
        | "update" => some (updateCmd now operands repo)
        | "delete" => some (deleteCmd operands repo)
        | "mark-in-progress" => some (markInProgressCmd now operands repo)
        | "mark-done" => some (markDoneCmd now operands repo)
        | "list" => some (listCmd operands repo)
        | _ => none
      match res with
      | none => ⟨1, usageLines, repo.file, true, false⟩
      | some c =>
        if c.panicked then ⟨2, c.out, c.repo.file, true, c.repoOp⟩
        else ⟨if c.err.isSome then 1 else 0, c.out, c.repo.file, true, c.repoOp⟩

/-! ## Derived definitions used only to state properties -/

/-- Run a sequence of `Add` calls: each element of `calls` supplies the
two clock readings and the description of one call. -/
def addAll (calls : List (Int × Int × String)) (tasks : List Task) : List Task :=
  calls.foldl (fun ts c => addTasks c.1 c.2.1 c.2.2 ts) tasks

/-- The per-task well-formedness invariant of the spec (§3): status is one
of the three enumerated values and `createdAt ≤ updatedAt`. -/
def WFTask (t : Task) : Prop :=
  (t.status = "todo" ∨ t.status = "in-progress" ∨ t.status = "done") ∧
    t.createdAt ≤ t.updatedAt

/-! ## Helper lemmas -/

/-- A map that fixes every element of a list is the identity on it. -/
theorem map_fix_eq_self (f : Task → Task) :
    ∀ (tasks : List Task), (∀ t ∈ tasks, f t = t) → tasks.map f = tasks := by
  intro tasks h
  induction tasks with
  | nil => rfl
  | cons a l ih =>
    simp only [List.map_cons, h a (List.mem_cons_self a l),
      ih (fun t ht => h t (List.mem_cons_of_mem a ht))]

/-- The ids produced by a run of `Add` calls continue the count upward
from the current length, one per call. -/
theorem addAll_ids (calls : List (Int × Int × String)) :
    ∀ tasks : List Task,
      (addAll calls tasks).map (fun t => t.id) =
        tasks.map (fun t => t.id) ++
          (List.range' (tasks.length + 1) calls.length).map (fun k => (k : Int)) := by
  induction calls with
  | nil => intro tasks; simp [addAll]
  | cons c cs ih =>
    intro tasks
    show (addAll cs (addTasks c.1 c.2.1 c.2.2 tasks)).map _ = _
    rw [ih]
    simp only [addTasks, mkTask, List.map_append, List.length_append,
      List.map_cons, List.map_nil, List.length_cons, List.length_nil,
      List.range'_succ, List.append_assoc]
    push_cast
    simp

/-- C1: the nth `Add` from an empty list is assigned id `n` (count-based:
`len(r.tasks)+1`, main.go line 84), and after adding three tasks,
deleting task 2 and adding again, the new task gets the already-used
id 3. -/
theorem add_assigns_count_based_ids :
    (∀ calls : List (Int × Int × String),
      (addAll calls []).map (fun t => t.id) =
        (List.range' 1 calls.length).map (fun k => (k : Int))) ∧
    deleteTasks 2 (addAll [(0, 0, "a"), (0, 0, "b"), (0, 0, "c")] []) =
      some [⟨1, "a", "todo", 0, 0⟩, ⟨3, "c", "todo", 0, 0⟩] ∧
    (mkTask 0 0 "d" [⟨1, "a", "todo", 0, 0⟩, ⟨3, "c", "todo", 0, 0⟩]).id = 3 ∧
    (addTasks 0 0 "d" [⟨1, "a", "todo", 0, 0⟩, ⟨3, "c", "todo", 0, 0⟩]).map
        (fun t => t.id) = [1, 3, 3] := by
  refine ⟨fun calls => ?_, by decide, by decide, by decide⟩
  simpa using addAll_ids calls []

/-- C4: with a failing write, `Add` still returns the created task, the
in-memory list still ends with it (append happens before `save`, no
rollback), and the error surfaces as the `PersistenceError`. -/
theorem add_no_rollback_on_save_failure (t1 t2 : Int) (d : String)
    (tasks : List Task) (f : FileState) (w : Nat) :
    addRepo false t1 t2 d ⟨tasks, f, w⟩ =
      (mkTask t1 t2 d tasks,
       ⟨tasks ++ [mkTask t1 t2 d tasks], f, w + 1⟩,
       some "PersistenceError") ∧
    mkTask t1 t2 d tasks ∈ tasks ++ [mkTask t1 t2 d tasks] := by
  exact ⟨rfl, List.mem_append_right _ (List.mem_singleton.mpr rfl)⟩

/-- C5: constructing the repository on an absent file creates it with an
empty serialized list and leaves the in-memory list empty; on a corrupt
file every invocation exits 1 without running any command; on a valid
file the full content becomes the in-memory list. -/
theorem construction_load_behaviour :
    newJsonTaskRepository .absent = .ok ⟨[], .valid [], 1⟩ ∧
    (∀ (now : Int) (cmd : String) (ops : List String),
      runMain now (cmd :: ops) .corrupt =
        ⟨1, [], .corrupt, true, false⟩) ∧
    (∀ l : List Task, newJsonTaskRepository (.valid l) = .ok ⟨l, .valid l, 0⟩) :=
  ⟨rfl, fun _ _ _ => rfl, fun _ => rfl⟩

/-- C7: `List` with the empty filter returns the full list; with a
non-empty filter it returns exactly the tasks of that status in order;
and its error component is always `nil`. -/
theorem list_filter_semantics (tasks : List Task) (f : FileState) (w : Nat)
    (s : String) :
    listRepo "" ⟨tasks, f, w⟩ = (tasks, none) ∧
    (s ≠ "" →
      listRepo s ⟨tasks, f, w⟩ =
        (tasks.filter (fun t => t.status == s), none)) ∧
    (listRepo s ⟨tasks, f, w⟩).2 = none := by
  refine ⟨rfl, fun hs => ?_, ?_⟩
  · simp [listRepo, hs]
  · by_cases hs : s = "" <;> simp [listRepo, hs]

/-- Witness for C7 at a concrete list and the filter `"done"`. -/
theorem list_filter_semantics_witness :
    listRepo "" ⟨[⟨1, "a", "done", 0, 0⟩], .valid [], 0⟩ =
      ([⟨1, "a", "done", 0, 0⟩], none) ∧
    ("done" ≠ "" →
      listRepo "done" ⟨[⟨1, "a", "done", 0, 0⟩], .valid [], 0⟩ =
        ([⟨1, "a", "done", 0, 0⟩].filter (fun t => t.status == "done"), none)) ∧
    (listRepo "done" ⟨[⟨1, "a", "done", 0, 0⟩], .valid [], 0⟩).2 = none :=
  list_filter_semantics [⟨1, "a", "done", 0, 0⟩] (.valid []) 0 "done"

/-- C10: `Update`, `MarkInProgress` and `MarkDone` rewrite EVERY position
whose task id matches, not only the first: position `j` of the result is
the mutated task exactly when the task at position `j` matched. -/
theorem mutations_affect_all_duplicates (now id : Int) (d : String)
    (tasks : List Task) (j : Nat) (t : Task) (h : tasks[j]? = some t) :
    (updateTasks now id d tasks)[j]? =
      some (if t.id = id then { t with description := d, updatedAt := now }
            else t) ∧
    (markInProgressTasks now id tasks)[j]? =
      some (if t.id = id then { t with status := "in-progress", updatedAt := now }
            else t) ∧
    (markDoneTasks now id tasks)[j]? =
      some (if t.id = id then { t with status := "done", updatedAt := now }
            else t) := by
  refine ⟨?_, ?_, ?_⟩ <;>
    simp [updateTasks, markInProgressTasks, markDoneTasks, List.getElem?_map, h]

/-- Witness for C10 on a list with a duplicated id: the SECOND task of
id 1 also receives the new description, the new status and the refreshed
timestamp. -/
theorem mutations_affect_all_duplicates_witness :
    (updateTasks 5 1 "z" [⟨1, "a", "todo", 0, 0⟩, ⟨1, "b", "todo", 0, 0⟩])[1]? =
      some ⟨1, "z", "todo", 0, 5⟩ ∧
    (markInProgressTasks 5 1 [⟨1, "a", "todo", 0, 0⟩, ⟨1, "b", "todo", 0, 0⟩])[1]? =
      some ⟨1, "b", "in-progress", 0, 5⟩ ∧
    (markDoneTasks 5 1 [⟨1, "a", "todo", 0, 0⟩, ⟨1, "b", "todo", 0, 0⟩])[1]? =
      some ⟨1, "b", "done", 0, 5⟩ := by
  have h := mutations_affect_all_duplicates 5 1 "z"
    [⟨1, "a", "todo", 0, 0⟩, ⟨1, "b", "todo", 0, 0⟩] 1 ⟨1, "b", "todo", 0, 0⟩ rfl
  exact ⟨h.1.trans (by decide), h.2.1.trans (by decide), h.2.2.trans (by decide)⟩



/-- If no element at position `i` or later of the backing array matches,
the remaining iterations of the `Delete` loop change nothing. -/
theorem deleteSteps_skip (id : Int) (fuel : Nat) :
    ∀ (i : Nat) (A : List Task) (m : Nat),
      (∀ t ∈ A.drop i, t.id ≠ id) → deleteSteps id fuel i A m = some (A, m) := by
  induction fuel with
  | zero => intro i A m _; rfl
  | succ fuel ih =>
    intro i A m h
    have hsub : ∀ t ∈ A.drop (i + 1), t.id ≠ id := by
      intro t ht
      apply h
      have h1 : A.drop (i + 1) = (A.drop i).drop 1 := by
        rw [List.drop_drop]
      exact List.drop_subset 1 (A.drop i) (h1 ▸ ht)
    cases hA : A[i]? with
    | none => simp [deleteSteps, hA, ih (i + 1) A m hsub]
    | some t =>
      have hmem : t ∈ A.drop i := by
        apply List.getElem?_mem (n := 0)
        rw [List.getElem?_drop]
        simpa using hA
      simp [deleteSteps, hA, h t hmem, ih (i + 1) A m hsub]

/-- Match-free iterations only advance the loop index: `k` match-free
positions from `i` consume `k` units of fuel and move the index to
`i + k`. -/
theorem deleteSteps_walk (id : Int) (k : Nat) :
    ∀ (fuel i : Nat) (A : List Task) (m : Nat),
      (∀ t ∈ (A.drop i).take k, t.id ≠ id) →
      deleteSteps id (k + fuel) i A m = deleteSteps id fuel (i + k) A m := by
  induction k with
  | zero => intro fuel i A m _; simp
  | succ k ih =>
    intro fuel i A m h
    rw [show k + 1 + fuel = (k + fuel) + 1 by omega]
    cases hA : A[i]? with
    | none =>
      have hlen : A.length ≤ i := by
        by_contra hlt
        push_neg at hlt
        exact absurd hA (by simp [List.getElem?_eq_getElem hlt])
      have hnil : ∀ j, A.drop j = A.drop j → True := fun _ _ => trivial
      have hcond : ∀ t ∈ (A.drop (i + 1)).take k, t.id ≠ id := by
        intro t ht
        have : A.drop (i + 1) = [] := List.drop_eq_nil_of_le (by omega)
        simp [this] at ht
      calc deleteSteps id ((k + fuel) + 1) i A m
          = deleteSteps id (k + fuel) (i + 1) A m := by simp [deleteSteps, hA]
        _ = deleteSteps id fuel (i + 1 + k) A m := ih fuel (i + 1) A m hcond
        _ = deleteSteps id fuel (i + (k + 1)) A m := by rw [show i + 1 + k = i + (k + 1) by omega]
    | some t =>
      have hlt : i < A.length := by
        rcases List.getElem?_eq_some.mp hA with ⟨h1, _⟩
        exact h1
      have hdrop : A.drop i = t :: A.drop (i + 1) := by
        rw [← List.getElem_cons_drop A i hlt]
        congr 1
        rcases List.getElem?_eq_some.mp hA with ⟨h1, h2⟩
        exact h2
      have hhead : ¬ t.id = id := by
        apply h
        rw [hdrop, List.take_succ_cons]
        exact List.mem_cons_self _ _
      have hcond : ∀ u ∈ (A.drop (i + 1)).take k, u.id ≠ id := by
        intro u hu
        apply h
        rw [hdrop, List.take_succ_cons]
        exact List.mem_cons_of_mem _ hu
      calc deleteSteps id ((k + fuel) + 1) i A m
          = deleteSteps id (k + fuel) (i + 1) A m := by simp [deleteSteps, hA, hhead]
        _ = deleteSteps id fuel (i + 1 + k) A m := ih fuel (i + 1) A m hcond
        _ = deleteSteps id fuel (i + (k + 1)) A m := by rw [show i + 1 + k = i + (k + 1) by omega]


/-- The `Delete` loop never invents tasks: every element of the final
backing array was an element of the initial one. -/
theorem deleteSteps_subset (id : Int) (fuel : Nat) :
    ∀ (i : Nat) (A : List Task) (m : Nat) (A' : List Task) (m' : Nat),
      deleteSteps id fuel i A m = some (A', m') → ∀ t ∈ A', t ∈ A := by
  induction fuel with
  | zero =>
    intro i A m A' m' h t ht
    simp only [deleteSteps, Option.some.injEq, Prod.mk.injEq] at h
    exact h.1 ▸ ht
  | succ fuel ih =>
    intro i A m A' m' h t ht
    cases hA : A[i]? with
    | none =>
      simp only [deleteSteps, hA] at h
      exact ih _ _ _ _ _ h t ht
    | some u =>
      by_cases hu : u.id = id
      · by_cases him : i + 1 ≤ m
        · simp only [deleteSteps, hA, hu, him, if_true, if_pos] at h
          have hmem := ih _ _ _ _ _ h t ht
          rcases List.mem_append.mp hmem with h1 | h1
          · rcases List.mem_append.mp h1 with h2 | h2
            · exact List.take_subset _ _ h2
            · exact List.drop_subset _ _ (List.take_subset _ _ h2)
          · exact List.drop_subset _ _ h1
        · simp only [deleteSteps, hA, hu, him, if_true, if_false] at h
          exact Option.noConfusion h
      · simp only [deleteSteps, hA, hu, if_false] at h
        exact ih _ _ _ _ _ h t ht

/-- Running `Delete` on `l₁ ++ t :: l₂` where `t` is the only match
removes exactly `t`: the stale copy the in-place shift leaves at the end
of the backing array lies beyond the final slice length and the loop
never matches it again. -/
theorem deleteTasks_of_unique_match (id : Int) (l₁ l₂ : List Task) (t : Task)
    (ht : t.id = id) (h₁ : ∀ u ∈ l₁, u.id ≠ id) (h₂ : ∀ u ∈ l₂, u.id ≠ id) :
    deleteTasks id (l₁ ++ t :: l₂) = some (l₁ ++ l₂) := by
  unfold deleteTasks
  have hlen : (l₁ ++ t :: l₂).length = l₁.length + (l₂.length + 1) := by
    simp [List.length_append]
  rw [hlen]
  rw [deleteSteps_walk id l₁.length (l₂.length + 1) 0 _ _
    (by simpa [List.take_left] using h₁)]
  simp only [Nat.zero_add]
  have hA : (l₁ ++ t :: l₂)[l₁.length]? = some t := by
    rw [List.getElem?_append_right (le_refl _)]
    simp
  have harith1 : l₁.length + (l₂.length + 1) - 1 - l₁.length = l₂.length := by omega
  have harith2 : l₁.length + (l₂.length + 1) - 1 = l₁.length + l₂.length := by omega
  have hd1 : (l₁ ++ t :: l₂).drop (l₁.length + 1) = l₂ := by
    rw [List.drop_append 1]
    simp
  have hd2 : (l₁ ++ t :: l₂).drop (l₁.length + l₂.length) = (t :: l₂).drop l₂.length :=
    List.drop_append l₂.length
  simp only [deleteSteps, hA]
  rw [if_pos ht, if_pos (show l₁.length + 1 ≤ l₁.length + (l₂.length + 1) by omega)]
  rw [List.take_left, harith1, harith2, hd1, hd2, List.take_length]
  have hcond : ∀ u ∈ (l₁ ++ l₂ ++ (t :: l₂).drop l₂.length).drop (l₁.length + 1),
      u.id ≠ id := by
    rw [List.append_assoc, List.drop_append 1]
    cases l₂ with
    | nil => simp
    | cons x xs =>
      intro u hu
      have hu2 : u ∈ (x :: xs) ++ ((t :: x :: xs).drop (xs.length + 1)) :=
        List.drop_subset 1 _ hu
      rw [List.drop_succ_cons] at hu2
      rcases List.mem_append.mp hu2 with h3 | h3
      · exact h₂ u h3
      · exact h₂ u (List.drop_subset _ _ h3)
  rw [deleteSteps_skip id l₂.length (l₁.length + 1) _ _ hcond]
  simp only [Option.map_some']
  rw [List.take_left' (by simp)]


/-- `WFTask` is decidable, so witnesses can be checked by evaluation. -/
instance (t : Task) : Decidable (WFTask t) := by
  unfold WFTask
  infer_instance

/-- C2: when no task has the given id, `Update`, `Delete`,
`MarkInProgress` and `MarkDone` all return success, leave the task list
unchanged in content, and still perform the whole-file save (the write
counter increases and the file is rewritten with the unchanged list). -/
theorem silent_success_on_missing_id (now id : Int) (d : String)
    (tasks : List Task) (f : FileState) (w : Nat)
    (h : ∀ t ∈ tasks, t.id ≠ id) :
    updateRepo true now id d ⟨tasks, f, w⟩ = (⟨tasks, .valid tasks, w + 1⟩, none) ∧
    deleteRepo true id ⟨tasks, f, w⟩ = some (⟨tasks, .valid tasks, w + 1⟩, none) ∧
    markInProgressRepo true now id ⟨tasks, f, w⟩ =
      (⟨tasks, .valid tasks, w + 1⟩, none) ∧
    markDoneRepo true now id ⟨tasks, f, w⟩ = (⟨tasks, .valid tasks, w + 1⟩, none) := by
  have hu : updateTasks now id d tasks = tasks :=
    map_fix_eq_self _ tasks (fun t ht => by simp [h t ht])
  have hmi : markInProgressTasks now id tasks = tasks :=
    map_fix_eq_self _ tasks (fun t ht => by simp [h t ht])
  have hmd : markDoneTasks now id tasks = tasks :=
    map_fix_eq_self _ tasks (fun t ht => by simp [h t ht])
  have hdel : deleteTasks id tasks = some tasks := by
    unfold deleteTasks
    rw [deleteSteps_skip id tasks.length 0 tasks tasks.length (by simpa using h)]
    simp
  refine ⟨?_, ?_, ?_, ?_⟩
  · simp [updateRepo, save, hu]
  · simp [deleteRepo, save, hdel]
  · simp [markInProgressRepo, save, hmi]
  · simp [markDoneRepo, save, hmd]

/-- Witness for C2: id 5 is absent from a one-task list. -/
theorem silent_success_on_missing_id_witness :
    updateRepo true 9 5 "x" ⟨[⟨1, "a", "todo", 0, 0⟩], .valid [], 3⟩ =
      (⟨[⟨1, "a", "todo", 0, 0⟩], .valid [⟨1, "a", "todo", 0, 0⟩], 4⟩, none) ∧
    deleteRepo true 5 ⟨[⟨1, "a", "todo", 0, 0⟩], .valid [], 3⟩ =
      some (⟨[⟨1, "a", "todo", 0, 0⟩], .valid [⟨1, "a", "todo", 0, 0⟩], 4⟩, none) ∧
    markInProgressRepo true 9 5 ⟨[⟨1, "a", "todo", 0, 0⟩], .valid [], 3⟩ =
      (⟨[⟨1, "a", "todo", 0, 0⟩], .valid [⟨1, "a", "todo", 0, 0⟩], 4⟩, none) ∧
    markDoneRepo true 9 5 ⟨[⟨1, "a", "todo", 0, 0⟩], .valid [], 3⟩ =
      (⟨[⟨1, "a", "todo", 0, 0⟩], .valid [⟨1, "a", "todo", 0, 0⟩], 4⟩, none) :=
  silent_success_on_missing_id 9 5 "x" [⟨1, "a", "todo", 0, 0⟩] (.valid []) 3
    (by decide)

/-- C6: on a list with pairwise-distinct ids that contains the given id,
`Delete` removes exactly that single task and keeps the remaining tasks
in their original relative order (the result is the id-mismatch filter of
the list). -/
theorem delete_removes_single_match (id : Int) (tasks : List Task) (t : Task)
    (hp : tasks.Pairwise (fun a b => a.id ≠ b.id)) (hmem : t ∈ tasks)
    (hid : t.id = id) :
    deleteTasks id tasks = some (tasks.filter (fun u => u.id != id)) := by
  rcases List.append_of_mem hmem with ⟨l₁, l₂, rfl⟩
  rw [List.pairwise_append] at hp
  rcases hp with ⟨hp1, hp2, hp12⟩
  have h₁ : ∀ u ∈ l₁, u.id ≠ id := fun u hu =>
    hid ▸ hp12 u hu t (List.mem_cons_self _ _)
  have h₂ : ∀ u ∈ l₂, u.id ≠ id := by
    intro u hu hcontra
    exact (List.pairwise_cons.mp hp2).1 u hu (by rw [hid, hcontra])
  rw [deleteTasks_of_unique_match id l₁ l₂ t hid h₁ h₂]
  congr 1
  rw [List.filter_append,
    List.filter_eq_self.mpr (fun u hu => by simpa using h₁ u hu),
    List.filter_cons_of_neg (by simpa using hid),
    List.filter_eq_self.mpr (fun u hu => by simpa using h₂ u hu)]

/-- Witness for C6: deleting id 2 from the three-task list. -/
theorem delete_removes_single_match_witness :
    deleteTasks 2 [⟨1, "a", "todo", 0, 0⟩, ⟨2, "b", "todo", 0, 0⟩,
        ⟨3, "c", "todo", 0, 0⟩] =
      some ([⟨1, "a", "todo", 0, 0⟩, ⟨2, "b", "todo", 0, 0⟩,
        ⟨3, "c", "todo", 0, 0⟩].filter (fun u => u.id != 2)) :=
  delete_removes_single_match 2 _ ⟨2, "b", "todo", 0, 0⟩ (by decide) (by decide) rfl

/-- C8: assuming every task is well formed and the clock is at or after
every `createdAt`, each operation yields only well-formed tasks: `Add`
appends a `todo` task with both timestamps equal to now, the mutating
scans only refresh `updatedAt` to now, and `Delete` only removes. -/
theorem operations_preserve_invariant (now id : Int) (d : String)
    (tasks : List Task)
    (hwf : ∀ t ∈ tasks, WFTask t) (hc : ∀ t ∈ tasks, t.createdAt ≤ now) :
    (∀ t ∈ addTasks now now d tasks, WFTask t) ∧
    (∀ t ∈ updateTasks now id d tasks, WFTask t) ∧
    (∀ ts', deleteTasks id tasks = some ts' → ∀ t ∈ ts', WFTask t) ∧
    (∀ t ∈ markInProgressTasks now id tasks, WFTask t) ∧
    (∀ t ∈ markDoneTasks now id tasks, WFTask t) := by
  refine ⟨?_, ?_, ?_, ?_, ?_⟩
  · intro t ht
    rcases List.mem_append.mp ht with h1 | h1
    · exact hwf t h1
    · rcases List.mem_singleton.mp h1 with rfl
      exact ⟨Or.inl rfl, le_refl _⟩
  · intro t ht
    rcases List.mem_map.mp ht with ⟨s, hs, rfl⟩
    by_cases hid : s.id = id
    · rw [if_pos hid]
      exact ⟨(hwf s hs).1, hc s hs⟩
    · rw [if_neg hid]
      exact hwf s hs
  · intro ts' hts' t ht
    unfold deleteTasks at hts'
    cases hds : deleteSteps id tasks.length 0 tasks tasks.length with
    | none => rw [hds] at hts'; exact Option.noConfusion hts'
    | some p =>
      rw [hds] at hts'
      simp only [Option.map_some', Option.some.injEq] at hts'
      refine hwf t (deleteSteps_subset id tasks.length 0 tasks tasks.length
        p.1 p.2 ?_ t (List.take_subset _ _ (hts' ▸ ht)))
      rw [hds]
  · intro t ht
    rcases List.mem_map.mp ht with ⟨s, hs, rfl⟩
    by_cases hid : s.id = id
    · rw [if_pos hid]
      exact ⟨Or.inr (Or.inl rfl), hc s hs⟩
    · rw [if_neg hid]
      exact hwf s hs
  · intro t ht
    rcases List.mem_map.mp ht with ⟨s, hs, rfl⟩
    by_cases hid : s.id = id
    · rw [if_pos hid]
      exact ⟨Or.inr (Or.inr rfl), hc s hs⟩
    · rw [if_neg hid]
      exact hwf s hs

/-- Witness for C8 on a concrete well-formed one-task list. -/
theorem operations_preserve_invariant_witness :
    (∀ t ∈ addTasks 5 5 "x" [⟨1, "a", "todo", 0, 1⟩], WFTask t) ∧
    (∀ t ∈ updateTasks 5 1 "x" [⟨1, "a", "todo", 0, 1⟩], WFTask t) ∧
    (∀ ts', deleteTasks 1 [⟨1, "a", "todo", 0, 1⟩] = some ts' →
      ∀ t ∈ ts', WFTask t) ∧
    (∀ t ∈ markInProgressTasks 5 1 [⟨1, "a", "todo", 0, 1⟩], WFTask t) ∧
    (∀ t ∈ markDoneTasks 5 1 [⟨1, "a", "todo", 0, 1⟩], WFTask t) :=
  operations_preserve_invariant 5 1 "x" [⟨1, "a", "todo", 0, 1⟩]
    (by decide) (by decide)

/-- C9: the end-to-end scenario: `add "buy milk"` on an empty store
prints the success line and persists one `todo` task; `mark-done 1`
exits 0 with no output; `list done` prints exactly `1 buy milk done`. -/
theorem end_to_end_scenario :
    runMain 5 ["add", "buy milk"] (.valid []) =
      ⟨0, ["task added successfully (ID: 1)"],
        .valid [⟨1, "buy milk", "todo", 5, 5⟩], true, true⟩ ∧
    runMain 7 ["mark-done", "1"] (.valid [⟨1, "buy milk", "todo", 5, 5⟩]) =
      ⟨0, [], .valid [⟨1, "buy milk", "done", 5, 7⟩], true, true⟩ ∧
    runMain 9 ["list", "done"] (.valid [⟨1, "buy milk", "done", 5, 7⟩]) =
      ⟨0, ["1 buy milk done"], .valid [⟨1, "buy milk", "done", 5, 7⟩],
        true, true⟩ := by
  exact ⟨by decide, by decide, by decide⟩


/-- Counterexample to C3: the unrecognized command `bogus` on an absent
task file is a dispatcher validation failure (exit code 1, no repository
operation), yet the task file IS accessed: `main` constructs the
repository before inspecting the command, so the file is read and even
created (`absent` becomes `valid []`).  This refutes the claim that
validation failures happen "without any file access". -/
theorem validation_failure_accesses_file :
    (runMain 0 ["bogus"] .absent).exitCode = 1 ∧
    (runMain 0 ["bogus"] .absent).repoOp = false ∧
    (runMain 0 ["bogus"] .absent).fileAccess = true ∧
    (runMain 0 ["bogus"] .absent).fs = .valid [] := by
  exact ⟨rfl, rfl, rfl, rfl⟩

/-- C3 as amended: every dispatcher validation failure — missing command,
unrecognized command name, wrong operand count, unparseable id, invalid
status operand or too many `list` operands — exits with code 1 and never
invokes a repository operation, leaving the file content unchanged; but
except for the missing-command case the repository has already been
constructed, so the task file is read before the failure is reported. -/
theorem validation_failures_amended (now : Int) (l : List Task) :
    (∀ fs : FileState, runMain now [] fs = ⟨1, usageLines, fs, false, false⟩) ∧
    (∀ (cmd : String) (ops : List String),
      cmd ∉ ["add", "update", "delete", "mark-in-progress", "mark-done", "list"] →
      runMain now (cmd :: ops) (.valid l) =
        ⟨1, usageLines, .valid l, true, false⟩) ∧
    (∀ ops : List String, ops.length ≠ 1 →
      runMain now ("add" :: ops) (.valid l) = ⟨1, [], .valid l, true, false⟩) ∧
    (∀ ops : List String, ops.length ≠ 2 →
      runMain now ("update" :: ops) (.valid l) = ⟨1, [], .valid l, true, false⟩) ∧
    (∀ ops : List String, ops.length ≠ 1 →
      runMain now ("delete" :: ops) (.valid l) = ⟨1, [], .valid l, true, false⟩) ∧
    (∀ ops : List String, ops.length ≠ 1 →
      runMain now ("mark-in-progress" :: ops) (.valid l) =
        ⟨1, [], .valid l, true, false⟩) ∧
    (∀ ops : List String, ops.length ≠ 1 →
      runMain now ("mark-done" :: ops) (.valid l) = ⟨1, [], .valid l, true, false⟩) ∧
    (∀ s d : String, atoi s = none →
      runMain now ["update", s, d] (.valid l) = ⟨1, [], .valid l, true, false⟩) ∧
    (∀ s : String, atoi s = none →
      runMain now ["delete", s] (.valid l) = ⟨1, [], .valid l, true, false⟩) ∧
    (∀ s : String, atoi s = none →
      runMain now ["mark-in-progress", s] (.valid l) =
        ⟨1, [], .valid l, true, false⟩) ∧
    (∀ s : String, atoi s = none →
      runMain now ["mark-done", s] (.valid l) = ⟨1, [], .valid l, true, false⟩) ∧
    (∀ s : String, ¬ ["todo", "in-progress", "done"].contains s = true →
      runMain now ["list", s] (.valid l) = ⟨1, [], .valid l, true, false⟩) ∧
    (∀ (s₁ s₂ : String) (ops : List String),
      runMain now ("list" :: s₁ :: s₂ :: ops) (.valid l) =
        ⟨1, [], .valid l, true, false⟩) := by
  refine ⟨fun fs => rfl, ?_, ?_, ?_, ?_, ?_, ?_, ?_, ?_, ?_, ?_, ?_, ?_⟩
  · intro cmd ops h
    simp only [runMain, newJsonTaskRepository, loadFile]
    split
    next => rfl
    next c heq =>
      exfalso
      split at heq
      all_goals first
        | exact Option.noConfusion heq
        | simp_all
  · intro ops h
    cases ops with
    | nil => rfl
    | cons a ops' =>
      cases ops' with
      | nil => simp at h
      | cons b ops'' => rfl
  · intro ops h
    cases ops with
    | nil => rfl
    | cons a ops' =>
      cases ops' with
      | nil => rfl
      | cons b ops'' =>
        cases ops'' with
        | nil => simp at h
        | cons e ops₃ => rfl
  · intro ops h
    cases ops with
    | nil => rfl
    | cons a ops' =>
      cases ops' with
      | nil => simp at h
      | cons b ops'' => rfl
  · intro ops h
    cases ops with
    | nil => rfl
    | cons a ops' =>
      cases ops' with
      | nil => simp at h
      | cons b ops'' => rfl
  · intro ops h
    cases ops with
    | nil => rfl
    | cons a ops' =>
      cases ops' with
      | nil => simp at h
      | cons b ops'' => rfl
  · intro s d h
    simp [runMain, newJsonTaskRepository, loadFile, updateCmd, h]
  · intro s h
    simp [runMain, newJsonTaskRepository, loadFile, deleteCmd, h]
  · intro s h
    simp [runMain, newJsonTaskRepository, loadFile, markInProgressCmd, h]
  · intro s h
    simp [runMain, newJsonTaskRepository, loadFile, markDoneCmd, h]
  · intro s h
    rw [List.elem_iff] at h
    simp only [List.mem_cons, List.not_mem_nil, or_false, not_or] at h
    simp [runMain, newJsonTaskRepository, loadFile, listCmd, h.1, h.2.1, h.2.2]
  · intro s₁ s₂ ops
    rfl


/-- Witness for C3 (amended) at one concrete input per failure class. -/
theorem validation_failures_amended_witness :
    runMain 0 [] .absent = ⟨1, usageLines, .absent, false, false⟩ ∧
    runMain 0 ["bogus"] (.valid []) = ⟨1, usageLines, .valid [], true, false⟩ ∧
    runMain 0 ["add"] (.valid []) = ⟨1, [], .valid [], true, false⟩ ∧
    runMain 0 ["update", "1"] (.valid []) = ⟨1, [], .valid [], true, false⟩ ∧
    runMain 0 ["delete"] (.valid []) = ⟨1, [], .valid [], true, false⟩ ∧
    runMain 0 ["mark-in-progress"] (.valid []) = ⟨1, [], .valid [], true, false⟩ ∧
    runMain 0 ["mark-done"] (.valid []) = ⟨1, [], .valid [], true, false⟩ ∧
    runMain 0 ["update", "x", "d"] (.valid []) = ⟨1, [], .valid [], true, false⟩ ∧
    runMain 0 ["delete", "x"] (.valid []) = ⟨1, [], .valid [], true, false⟩ ∧
    runMain 0 ["mark-in-progress", "x"] (.valid []) = ⟨1, [], .valid [], true, false⟩ ∧
    runMain 0 ["mark-done", "x"] (.valid []) = ⟨1, [], .valid [], true, false⟩ ∧
    runMain 0 ["list", "bogus"] (.valid []) = ⟨1, [], .valid [], true, false⟩ ∧
    runMain 0 ["list", "a", "b"] (.valid []) = ⟨1, [], .valid [], true, false⟩ := by
  obtain ⟨h1, h2, h3, h4, h5, h6, h7, h8, h9, h10, h11, h12, h13⟩ :=
    validation_failures_amended 0 []
  exact ⟨h1 .absent, h2 "bogus" [] (by decide), h3 [] (by decide),
    h4 ["1"] (by decide), h5 [] (by decide), h6 [] (by decide),
    h7 [] (by decide), h8 "x" "d" (by decide), h9 "x" (by decide),
    h10 "x" (by decide), h11 "x" (by decide), h12 "bogus" (by decide),
    h13 "a" "b" []⟩

end TaskTracker
